import Mathlib

/-!
Verification development for the pg_duckdb conversion core
(`src/quack_types.cpp` and `src/pgduckdb_filter.cpp`).

The C++ code is shallowly embedded: machine integers become `Int` with
explicit wrapping where the source casts, Postgres `Datum` values are the
mathematical value of the underlying 64-bit word, fallible paths
(`elog(ERROR, ...)`, `D_ASSERT`) become `Except`, and the parts of the
row-buffer decoding that depend on raw tuple bytes (null bitmap lookups,
varlena sizes, pad-byte tests, the actual fetched value) are abstracted
into an oracle record, since those byte-level helpers live in Postgres
headers outside this repository.  IEEE doubles are idealized as `ℚ`; no
theorem below depends on floating-point rounding.
-/

/-- Two's-complement wrap of an integer to a signed width of `bits` bits,
modelling a C cast such as `static_cast<int32_t>`. -/
def wrapSigned (bits : Nat) (v : Int) : Int :=
  let m := v.emod (2 ^ bits)
  if m < 2 ^ (bits - 1) then m else m - 2 ^ bits

/-- C cast to `int8_t` / the `DatumGetChar` conversion. -/
def castInt8 (v : Int) : Int := wrapSigned 8 v

/-- C cast to `int16_t`. -/
def castInt16 (v : Int) : Int := wrapSigned 16 v

/-- C cast to `int32_t`. -/
def castInt32 (v : Int) : Int := wrapSigned 32 v

/-- C cast to `int64_t`. -/
def castInt64 (v : Int) : Int := wrapSigned 64 v

/-- C cast to `uint8_t`. -/
def castUInt8 (v : Int) : Int := v.emod (2 ^ 8)

/-- C cast (or representation) as `uint64_t`, the width of `Datum`. -/
def castUInt64 (v : Int) : Int := v.emod (2 ^ 64)

/-- Postgres type oid constants used by the two source files. -/
def BOOLOID : Nat := 16

def CHAROID : Nat := 18

def INT8OID : Nat := 20

def INT2OID : Nat := 21

def INT4OID : Nat := 23

def TEXTOID : Nat := 25

def FLOAT4OID : Nat := 700

def FLOAT8OID : Nat := 701

def BPCHAROID : Nat := 1042

def VARCHAROID : Nat := 1043

def DATEOID : Nat := 1082

def TIMESTAMPOID : Nat := 1114

def NUMERICOID : Nat := 1700

/-- Sign word of a positive Postgres numeric (`NUMERIC_POS`). -/
def NUMERIC_POS : Nat := 0x0000

/-- Sign word of a negative Postgres numeric (`NUMERIC_NEG`). -/
def NUMERIC_NEG : Nat := 0x4000

/-- The deconstructed Postgres numeric (`NumericVar`): a count of base-10000
digit groups, the positional weight of the most significant group, a sign
word, the display scale, and the digit-group array (each entry is a
`NumericDigit`, an `int16` in `[0, 9999]` for valid values). -/
structure NumericVar where
  ndigits : Nat
  weight : Int
  sign : Nat
  dscale : Nat
  digits : List Int
  deriving Repr, DecidableEq

/-- Source `NumericIsNegative`: the sign word equals `NUMERIC_NEG`. -/
def NumericIsNegative (numeric : NumericVar) : Bool :=
  numeric.sign == NUMERIC_NEG

/-- A destination policy for `ConvertDecimal` (the `OP` template parameter):
its power-of-ten helper, its division operator (C integer division for the
fixed-width policy, exact division for the double policy), and its
finalization step. -/
structure DecimalPolicy (T : Type) where
  powTen : Nat → T
  divOp : T → T → T
  finalize : NumericVar → T → T

/-- Modelled from the spec: `DecimalConversionInteger`
(`quack/types/decimal.hpp`, not under `src/`): the fixed-width integer
policy's power-of-ten helper is `10 ^ n`, its division is C (truncating)
integer division, and its finalization is the identity. -/
def DecimalConversionInteger : DecimalPolicy Int :=
  { powTen := fun k => 10 ^ k
    divOp := Int.tdiv
    finalize := fun _ x => x }

/-- Modelled from the spec: `DecimalConversionDouble`
(`quack/types/decimal.hpp`, not under `src/`): the double policy's
power-of-ten helper is `10 ^ n`, its division is (idealized) exact
division, and its finalization divides by `10 ^ dscale`. -/
def DecimalConversionDouble : DecimalPolicy ℚ :=
  { powTen := fun k => 10 ^ k
    divOp := fun a b => a / b
    finalize := fun numeric x => x / 10 ^ numeric.dscale }

/-- The integral-part accumulation loop of `ConvertDecimal`:
`integral_part = digits[0]`, then for `digit_index` from `1` to `weight`,
`integral_part = integral_part * NBASE + (digit_index < ndigits ?
digits[digit_index] : 0)`.  `integralAccum digits ndigits w` is the
accumulator after the iteration for index `w`. -/
def integralAccum {T : Type} [CommRing T] (digits : List Int) (ndigits : Nat) : Nat → T
  | 0 => ((digits.getD 0 0 : Int) : T)
  | i + 1 =>
    integralAccum digits ndigits i * 10000 +
      (if i + 1 < ndigits then ((digits.getD (i + 1) 0 : Int) : T) else 0)

/-- The fractional-part loop of `ConvertDecimal`, run over the digit groups
from index `max 0 (weight + 1)` to `ndigits - 1` (passed here as a list).
Every group but the last is accumulated with base `NBASE = 10000`; the last
group uses the corrected base and digit: with `corr` the
`fractional_power_correction`, if `corr ≥ 0` both the base and the digit
are divided by `10 ^ corr` (C truncating division), otherwise both are
multiplied by `10 ^ (-corr)`. -/
def fracAccum {T : Type} [CommRing T] (OP : DecimalPolicy T) (corr : Int) :
    List Int → T → T
  | [], acc => acc
  | [d], acc =>
    if 0 ≤ corr then
      acc * OP.divOp 10000 (OP.powTen corr.toNat) + OP.divOp ((d : Int) : T) (OP.powTen corr.toNat)
    else
      acc * (10000 * OP.powTen (-corr).toNat) + ((d : Int) : T) * OP.powTen (-corr).toNat
  | d :: e :: rest, acc => fracAccum OP corr (e :: rest) (acc * 10000 + ((d : Int) : T))

/-- Source `ConvertDecimal<T, OP>` (`quack_types.cpp:151-210`): decode a
sign/weight/base-10000 digit-group numeric into the destination type.
Zero digit groups yield `0`; a nonnegative weight contributes the integral
accumulation multiplied by `10 ^ dscale`; remaining digit groups past the
decimal point contribute the corrected fractional accumulation; the policy
finalization is applied to the sum and the result is negated exactly when
the sign word is `NUMERIC_NEG`. -/
def ConvertDecimal {T : Type} [CommRing T] (OP : DecimalPolicy T) (numeric : NumericVar) : T :=
  if numeric.ndigits = 0 then 0
  else
    let scalePower := OP.powTen numeric.dscale
    let integralPart : T :=
      if 0 ≤ numeric.weight then
        integralAccum numeric.digits numeric.ndigits numeric.weight.toNat * scalePower
      else 0
    let fractionalPart : T :=
      if (numeric.ndigits : Int) > numeric.weight + 1 then
        let corr : Int := ((numeric.ndigits : Int) - numeric.weight - 1) * 4 - (numeric.dscale : Int)
        fracAccum OP corr
          ((numeric.digits.take numeric.ndigits).drop (max 0 (numeric.weight + 1)).toNat) 0
      else 0
    let baseRes := OP.finalize numeric (integralPart + fractionalPart)
    if NumericIsNegative numeric then -baseRes else baseRes

/-- The exact rational value denoted by a `NumericVar`:
`±  Σ_i digits[i] * 10000 ^ (weight - i)`. -/
def numericValue (numeric : NumericVar) : ℚ :=
  (if NumericIsNegative numeric then -1 else 1) *
    ∑ i ∈ Finset.range numeric.ndigits,
      ((numeric.digits.getD i 0 : Int) : ℚ) * (10000 : ℚ) ^ ((numeric.weight - i : Int))

/-- Source constant `QUACK_DUCK_DATE_OFFSET` (`quack_types.cpp:18`): DuckDB
dates count from 1970-01-01 while Postgres dates count from 2000-01-01. -/
def QUACK_DUCK_DATE_OFFSET : Int := 10957

/-- Postgres header constant `USECS_PER_DAY`. -/
def USECS_PER_DAY : Int := 86400000000

/-- Source constant `QUACK_DUCK_TIMESTAMP_OFFSET` (`quack_types.cpp:19`). -/
def QUACK_DUCK_TIMESTAMP_OFFSET : Int := 10957 * USECS_PER_DAY

/-- Source `numeric_typmod_precision` (`quack_types.cpp:81-85`):
`((typmod - VARHDRSZ) >> 16) & 0xffff` on 32-bit ints, with
`VARHDRSZ = 4`.  The arithmetic is modelled on the unsigned 32-bit
pattern of `typmod - 4`; the final 16-bit mask makes the arithmetic and
logical shifts agree. -/
def numeric_typmod_precision (typmod : Int) : Int :=
  ((((((typmod - 4).emod (2 ^ 32)).toNat) >>> 16) &&& 0xffff : Nat) : Int)

/-- Source `numeric_typmod_scale` (`quack_types.cpp:87-91`):
`(((typmod - VARHDRSZ) & 0x7ff) ^ 1024) - 1024`. -/
def numeric_typmod_scale (typmod : Int) : Int :=
  ((((((typmod - 4).emod (2 ^ 32)).toNat) &&& 0x7ff) ^^^ 0x400 : Nat) : Int) - 0x400

/-- The DuckDB logical types produced by the type mapping, with the
`NumericAsDouble` extra-type-info marker carried on `double`. -/
inductive DuckType where
  | boolean
  | tinyint
  | smallint
  | integer
  | bigint
  | varchar
  | date
  | timestamp
  | double (numericAsDouble : Bool)
  | decimal (precision scale : Int)
  deriving Repr, DecidableEq

/-- Errors raised by the conversion core via `elog(ERROR, ...)`. -/
inductive QuackErr where
  | unsupportedPg (oid : Nat)
  | unsupportedDuck
  | decimalType
  deriving Repr, DecidableEq

/-- Source `ConvertPostgresToDuckColumnType` (`quack_types.cpp:93-128`).
For `NUMERICOID`, a missing typmod (`-1`), a negative decoded precision or
scale, or a precision above 38 selects `DOUBLE` carrying the
`NumericAsDouble` marker; otherwise `DECIMAL(precision, scale)`. -/
def ConvertPostgresToDuckColumnType (type : Nat) (typmod : Int) : Except QuackErr DuckType :=
  if type = BOOLOID then .ok .boolean
  else if type = CHAROID then .ok .tinyint
  else if type = INT2OID then .ok .smallint
  else if type = INT4OID then .ok .integer
  else if type = INT8OID then .ok .bigint
  else if type = BPCHAROID ∨ type = TEXTOID ∨ type = VARCHAROID then .ok .varchar
  else if type = DATEOID then .ok .date
  else if type = TIMESTAMPOID then .ok .timestamp
  else if type = FLOAT8OID then .ok (.double false)
  else if type = NUMERICOID then
    let precision := numeric_typmod_precision typmod
    let scale := numeric_typmod_scale typmod
    if typmod = -1 ∨ precision < 0 ∨ scale < 0 ∨ precision > 38 then .ok (.double true)
    else .ok (.decimal precision scale)
  else .error (.unsupportedPg type)

/-- What `ConvertPostgresToDuckValue` writes into the DuckDB vector slot:
the typed payload, distinguishing the numeric-as-double decimal-codec path
from the plain `DatumGetFloat8` path. -/
inductive DuckWritten where
  | wBool (b : Bool)
  | wTinyint (i : Int)
  | wSmallint (i : Int)
  | wInteger (i : Int)
  | wBigint (i : Int)
  | wVarchar
  | wDate (days : Int)
  | wTimestamp (micros : Int)
  | wDoubleCodec (q : ℚ)
  | wDoubleF8 (q : ℚ)
  deriving Repr, DecidableEq

/-- Source `ConvertPostgresToDuckValue` (`quack_types.cpp:212-260`),
dispatching on the destination vector's logical type.  `numOf` abstracts
`DatumGetNumeric`/`FromNumeric` and `f8Of` abstracts `DatumGetFloat8`
(both interpret the datum's pointee, which lives outside this core).
The `DOUBLE` case checks the `NumericAsDouble` aux-info marker and then
decodes through `ConvertDecimal<double, DecimalConversionDouble>`;
a `DECIMAL`-typed destination raises an error. -/
def ConvertPostgresToDuckValue (numOf : Int → NumericVar) (f8Of : Int → ℚ)
    (ty : DuckType) (value : Int) : Except QuackErr DuckWritten :=
  match ty with
  | .boolean => .ok (.wBool (value ≠ 0))
  | .tinyint => .ok (.wTinyint (castInt8 value))
  | .smallint => .ok (.wSmallint (castInt16 value))
  | .integer => .ok (.wInteger (castInt32 value))
  | .bigint => .ok (.wBigint (castInt64 value))
  | .varchar => .ok .wVarchar
  | .date => .ok (.wDate (castInt32 (value + QUACK_DUCK_DATE_OFFSET)))
  | .timestamp => .ok (.wTimestamp (castInt64 (value + QUACK_DUCK_TIMESTAMP_OFFSET)))
  | .double numericAsDouble =>
    if numericAsDouble then
      .ok (.wDoubleCodec (ConvertDecimal DecimalConversionDouble (numOf value)))
    else
      .ok (.wDoubleF8 (f8Of value))
  | .decimal _ _ => .error .decimalType

/-- A DuckDB `Value` as seen through its typed `GetValue<T>` accessors
(the only way `ConvertDuckToPostgresValue` reads it). -/
structure DuckValue where
  gBool : Bool
  gInt8 : Int
  gInt16 : Int
  gInt32 : Int
  gInt64 : Int
  gDateDays : Int
  gMicros : Int
  gDouble : ℚ
  deriving Repr

/-- What `ConvertDuckToPostgresValue` stores into `tts_values[col]`. -/
inductive PgWritten where
  | pBool (b : Bool)
  | pChar (i : Int)
  | pInt2 (i : Int)
  | pInt4 (i : Int)
  | pInt8 (i : Int)
  | pText
  | pDate (days : Int)
  | pTimestamp (micros : Int)
  | pFloat8 (q : ℚ)
  deriving Repr

/-- Source `ConvertDuckToPostgresValue` (`quack_types.cpp:21-79`),
dispatching on the destination attribute's type oid.  The `NUMERICOID`
case raises the same unsupported-type error as the default case; dates
and timestamps subtract the epoch offsets. -/
def ConvertDuckToPostgresValue (oid : Nat) (value : DuckValue) : Except QuackErr PgWritten :=
  if oid = BOOLOID then .ok (.pBool value.gBool)
  else if oid = CHAROID then .ok (.pChar value.gInt8)
  else if oid = INT2OID then .ok (.pInt2 value.gInt16)
  else if oid = INT4OID then .ok (.pInt4 value.gInt32)
  else if oid = INT8OID then .ok (.pInt8 value.gInt64)
  else if oid = BPCHAROID ∨ oid = TEXTOID ∨ oid = VARCHAROID then .ok .pText
  else if oid = DATEOID then .ok (.pDate (value.gDateDays - QUACK_DUCK_DATE_OFFSET))
  else if oid = TIMESTAMPOID then .ok (.pTimestamp (value.gMicros - QUACK_DUCK_TIMESTAMP_OFFSET))
  else if oid = FLOAT8OID then .ok (.pFloat8 value.gDouble)
  else if oid = NUMERICOID then .error (.unsupportedPg oid)
  else .error (.unsupportedPg oid)

/-- One entry of the attribute descriptor sequence
(`Form_pg_attribute`): byte width (`-1` meaning varlena), alignment
requirement in bytes, and the mutable cached offset slot (`-1` when
unset). -/
structure PgAttribute where
  attlen : Int
  attalign : Nat
  attcacheoff : Int
  deriving Repr, DecidableEq

instance : Inhabited PgAttribute := ⟨{ attlen := 0, attalign := 1, attcacheoff := -1 }⟩

/-- The byte-level collaborators of the tuple reader, abstracted: the
tuple-header `has nulls` bit, the null-bitmap test `att_isnull`, the
pad-byte test used by `att_align_pointer` (true when the byte at the
given offset is zero), the data-dependent length increment of
`att_addlength_pointer` for non-positive `attlen`, and the fetched datum
(`fetchatt`).  These live in Postgres headers outside this repository;
the claims proved below hold for every instantiation. -/
structure RowOracle where
  hasnulls : Bool
  attIsNull : Nat → Bool
  padByteIsZero : Nat → Bool
  dataLenAt : Int → Nat → Nat
  fetchAt : Int → Nat → Int

/-- Postgres `TYPEALIGN`: round `off` up to a multiple of `a`. -/
def alignTo (a : Nat) (off : Nat) : Nat :=
  if a = 0 then off else ((off + a - 1) / a) * a

/-- Postgres `att_align_pointer` for `attlen = -1`: no alignment when the
byte at the current offset is a non-zero (packed varlena) byte. -/
def attAlignPointer (R : RowOracle) (a : Nat) (off : Nat) : Nat :=
  if R.padByteIsZero off then alignTo a off else off

/-- Postgres `att_addlength_pointer`: advance by the fixed width, or by
the data-dependent encoded length for varlena / cstring attributes. -/
def attAddLength (R : RowOracle) (attlen : Int) (off : Nat) : Nat :=
  if 0 < attlen then off + attlen.toNat else off + R.dataLenAt attlen off

/-- The reader's per-attribute loop state: running byte offset, slow-mode
flag, and the value/null outputs of the most recent iteration. -/
structure AttScanState where
  off : Nat
  slow : Bool
  value : Int
  isNull : Bool
  deriving Repr, DecidableEq

/-- One iteration of the attribute loop of `HeapTupleFetchNextDatumValue`
(`quack_types.cpp:297-334`): null-bitmap check (which forces slow mode),
cached-offset fast path, varlena alignment (caching the offset only when
not slow and already aligned, else aligning via the pad byte and forcing
slow mode), nominal alignment with offset caching when not slow, value
fetch, offset advance, and the trailing `attlen <= 0` slow-mode latch.
Returns the updated loop state and the (possibly cache-updated)
attribute descriptor. -/
def fetchStep (R : RowOracle) (att : PgAttribute) (attnum : Nat) (s : AttScanState) :
    AttScanState × PgAttribute :=
  if R.hasnulls && R.attIsNull attnum then
    ({ off := s.off, slow := true, value := 0, isNull := true }, att)
  else
    let c : Nat × Bool × PgAttribute :=
      if s.slow = false ∧ 0 ≤ att.attcacheoff then
        (att.attcacheoff.toNat, s.slow, att)
      else if att.attlen = -1 then
        if s.slow = false ∧ s.off = alignTo att.attalign s.off then
          (s.off, s.slow, { att with attcacheoff := (s.off : Int) })
        else
          (attAlignPointer R att.attalign s.off, true, att)
      else
        let o := alignTo att.attalign s.off
        (o, s.slow, if s.slow = false then { att with attcacheoff := (o : Int) } else att)
    let v := R.fetchAt att.attlen c.1
    let off2 := attAddLength R att.attlen c.1
    let slow2 := if att.attlen ≤ 0 then true else c.2.1
    ({ off := off2, slow := slow2, value := v, isNull := false }, c.2.2)

/-- The attribute loop of `HeapTupleFetchNextDatumValue`: process `cnt`
attributes starting at index `attnum`, threading the loop state and the
descriptor sequence (whose cached-offset slots the steps may update). -/
def fetchLoop (R : RowOracle) : Nat → Nat → List PgAttribute → AttScanState →
    AttScanState × List PgAttribute
  | _, 0, descs, s => (s, descs)
  | attnum, cnt + 1, descs, s =>
    let r := fetchStep R (descs.getD attnum default) attnum s
    fetchLoop R (attnum + 1) cnt (descs.set attnum r.2) r.1

/-- Decoding a fresh row from attribute 0: the loop state after the first
`m` attributes of the row have been processed. -/
def rowRun (R : RowOracle) (descs : List PgAttribute) (m : Nat) :
    AttScanState × List PgAttribute :=
  fetchLoop R 0 m descs { off := 0, slow := false, value := 0, isNull := false }

/-- Source `HeapTuplePageReadState`: the cross-call cursor. -/
structure HeapReadState where
  m_slow : Bool
  m_nvalid : Nat
  m_offset : Nat
  deriving Repr, DecidableEq

/-- The outputs of one `HeapTupleFetchNextDatumValue` call: the returned
datum, the `*isNull` out-parameter, the updated cursor and the updated
descriptor sequence. -/
structure HeapFetchOut where
  value : Int
  isNull : Bool
  state : HeapReadState
  descs : List PgAttribute
  deriving Repr

/-- Source `HeapTupleFetchNextDatumValue` (`quack_types.cpp:268-346`).
`tupleNatts` is `HeapTupleHeaderGetNatts(tuple->t_data)`; the requested
count is truncated to it.  When resuming (`m_nvalid ≠ 0`) the offset and
slow flag are restored from the cursor.  Note that the `*isNull`
out-parameter is only written inside the loop body, so it keeps the
caller's value (`isNullIn`) when no attribute is processed. -/
def HeapTupleFetchNextDatumValue (R : RowOracle) (tupleNatts : Nat)
    (descs : List PgAttribute) (st : HeapReadState) (nattsReq : Nat) (isNullIn : Bool) :
    HeapFetchOut :=
  let natts := min tupleNatts nattsReq
  let attnum := st.m_nvalid
  let off := if attnum = 0 then 0 else st.m_offset
  let slow := if attnum = 0 then false else st.m_slow
  let r := fetchLoop R attnum (natts - attnum) descs
    { off := off, slow := slow, value := 0, isNull := isNullIn }
  { value := r.1.value
    isNull := r.1.isNull
    state := { m_slow := r.1.slow, m_nvalid := max attnum natts, m_offset := r.1.off }
    descs := r.2 }

/-- The column loop of `InsertTupleIntoChunk`: for each output column `i`
it initializes the `isNull` out-parameter to `false`, requests `i + 1`
attributes, and records `none` (validity-mask invalidation) when `isNull`
came back true, else the raw datum handed to the value converter. -/
def insertLoop (R : RowOracle) (tupleNatts : Nat) :
    Nat → Nat → HeapReadState → List PgAttribute → List (Option Int) →
    List (Option Int) × HeapReadState × List PgAttribute
  | _, 0, st, descs, acc => (acc.reverse, st, descs)
  | i, rem + 1, st, descs, acc =>
    let r := HeapTupleFetchNextDatumValue R tupleNatts descs st (i + 1) false
    insertLoop R tupleNatts (i + 1) rem r.state r.descs
      ((if r.isNull then none else some r.value) :: acc)

/-- Source `InsertTupleIntoChunk` (`quack_types.cpp:348-362`), abstracted
to the per-column null/datum decision (the subsequent per-value conversion
is `ConvertPostgresToDuckValue`, modelled separately). -/
def InsertTupleIntoChunk (R : RowOracle) (tupleNatts : Nat) (descs : List PgAttribute)
    (tupleDescNatts : Nat) : List (Option Int) × HeapReadState × List PgAttribute :=
  insertLoop R tupleNatts 0 tupleDescNatts
    { m_slow := false, m_nvalid := 0, m_offset := 0 } descs []

/-- The comparison operators of a DuckDB constant filter. -/
inductive CompareOp where
  | eq
  | lt
  | le
  | gt
  | ge
  deriving Repr, DecidableEq

/-- A DuckDB `Value` as seen through `GetValueUnsafe<T>`, the typed views
used by `TemplatedFilterOperation`.  Floats are idealized as `ℚ`. -/
structure DuckConstant where
  cBool : Bool
  cUInt8 : Int
  cInt16 : Int
  cInt32 : Int
  cInt64 : Int
  cFloat : ℚ
  cDouble : ℚ
  deriving Repr

/-- Booleans ordered as in C/DuckDB: `false < true`. -/
def boolAsInt (b : Bool) : Int := if b then 1 else 0

/-- DuckDB integer comparison `OP::Operation` for the requested operator. -/
def intCompare (op : CompareOp) (a b : Int) : Bool :=
  match op with
  | .eq => a == b
  | .lt => a < b
  | .le => a ≤ b
  | .gt => b < a
  | .ge => b ≤ a

/-- DuckDB floating comparison, idealized over `ℚ`. -/
def ratCompare (op : CompareOp) (a b : ℚ) : Bool :=
  match op with
  | .eq => a == b
  | .lt => a < b
  | .le => a ≤ b
  | .gt => b < a
  | .ge => b ≤ a

/-- Errors of the filter evaluator: the unsupported-type `elog(ERROR)` of
`FilterOperationSwitch` and the `D_ASSERT(0)` default branches. -/
inductive FilterErr where
  | unsupportedType (oid : Nat)
  | invariantViolation
  deriving Repr, DecidableEq

/-- Modelled from the spec: `PGDUCKDB_DUCK_DATE_OFFSET`
(`pgduckdb/pgduckdb_types.hpp`, not under `src/`): the fixed epoch offset
of 10957 days between the row store's and the columnar store's date
epochs. -/
def PGDUCKDB_DUCK_DATE_OFFSET : Int := 10957

/-- Modelled from the spec: `PGDUCKDB_DUCK_TIMESTAMP_OFFSET`
(`pgduckdb/pgduckdb_types.hpp`, not under `src/`): 10957 days in
microseconds. -/
def PGDUCKDB_DUCK_TIMESTAMP_OFFSET : Int := 10957 * 86400000000

/-- Source `FilterOperationSwitch` (`pgduckdb_filter.cpp:20-58`): dispatch
on the row-store type oid, casting the raw datum to the comparison's
physical type; dates and timestamps first add the epoch offset to the
datum (truncating to the 32-bit / 64-bit value), since the filter
constant is already in the columnar epoch; any other oid raises the
unsupported-type error. -/
def FilterOperationSwitch (op : CompareOp) (value : Int) (constant : DuckConstant)
    (type_oid : Nat) : Except FilterErr Bool :=
  if type_oid = BOOLOID then
    .ok (intCompare op (boolAsInt (value ≠ 0)) (boolAsInt constant.cBool))
  else if type_oid = CHAROID then
    .ok (intCompare op (castUInt8 value) constant.cUInt8)
  else if type_oid = INT2OID then
    .ok (intCompare op (castInt16 value) constant.cInt16)
  else if type_oid = INT4OID then
    .ok (intCompare op (castInt32 value) constant.cInt32)
  else if type_oid = INT8OID then
    .ok (intCompare op (castInt64 value) constant.cInt64)
  else if type_oid = FLOAT4OID then
    .ok (ratCompare op ((castUInt64 value : Int) : ℚ) constant.cFloat)
  else if type_oid = FLOAT8OID then
    .ok (ratCompare op ((castUInt64 value : Int) : ℚ) constant.cDouble)
  else if type_oid = DATEOID then
    .ok (intCompare op (castInt32 (value + PGDUCKDB_DUCK_DATE_OFFSET)) constant.cInt32)
  else if type_oid = TIMESTAMPOID then
    .ok (intCompare op (castInt64 (value + PGDUCKDB_DUCK_TIMESTAMP_OFFSET)) constant.cInt64)
  else .error (.unsupportedType type_oid)

/-- The filter-tree variant evaluated by `ApplyValueFilter`. -/
inductive TableFilter where
  | conjunctionAnd (children : List TableFilter)
  | constantComparison (op : CompareOp) (constant : DuckConstant)
  | isNotNull
  | isNull

mutual

/-- Source `ApplyValueFilter` (`pgduckdb_filter.cpp:60-105`): an
AND-conjunction accumulates `value_filter_result &= child` over all
children starting from `true`; a constant comparison dispatches through
`FilterOperationSwitch`; the null checks compare against `is_null`. -/
def ApplyValueFilter : TableFilter → Int → Bool → Nat → Except FilterErr Bool
  | .conjunctionAnd cs, value, is_null, type_oid => applyFilterList cs value is_null type_oid true
  | .constantComparison op c, value, _, type_oid => FilterOperationSwitch op value c type_oid
  | .isNotNull, _, is_null, _ => .ok (is_null == false)
  | .isNull, _, is_null, _ => .ok (is_null == true)

/-- The child loop of the AND-conjunction case of `ApplyValueFilter`:
every child is evaluated in order (an error aborts via the host's error
mechanism) and the results are accumulated with `&=`. -/
def applyFilterList : List TableFilter → Int → Bool → Nat → Bool → Except FilterErr Bool
  | [], _, _, _, acc => .ok acc
  | c :: cs, value, is_null, type_oid, acc =>
    match ApplyValueFilter c value is_null type_oid with
    | .error e => .error e
    | .ok r => applyFilterList cs value is_null type_oid (acc && r)

end

/-- Fixture for the truncation scenario: a 5-attribute descriptor sequence
of plain 4-byte integer columns. -/
def descsTrunc : List PgAttribute :=
  List.replicate 5 { attlen := 4, attalign := 4, attcacheoff := -1 }

/-- Fixture: a 3-attribute tuple with no nulls whose fetched datum at
offset `o` is `o + 100`. -/
def rowOracleTrunc : RowOracle :=
  { hasnulls := false
    attIsNull := fun _ => false
    padByteIsZero := fun _ => true
    dataLenAt := fun _ _ => 0
    fetchAt := fun _ off => (off : Int) + 100 }

/-- Fixture: a tuple whose first attribute is null. -/
def rowOracleNullFirst : RowOracle :=
  { hasnulls := true
    attIsNull := fun attnum => attnum == 0
    padByteIsZero := fun _ => true
    dataLenAt := fun _ _ => 8
    fetchAt := fun _ off => (off : Int) }

/-- Fixture: descriptors int4, int4, varlena, none with a cached offset. -/
def descsNullFirst : List PgAttribute :=
  [{ attlen := 4, attalign := 4, attcacheoff := -1 },
   { attlen := 4, attalign := 4, attcacheoff := -1 },
   { attlen := -1, attalign := 4, attcacheoff := -1 }]

/-- Fixture: the numeric 0.01 (one digit group `100`, weight `-1`,
display scale 2, positive sign). -/
def numericCent : NumericVar :=
  { ndigits := 1, weight := -1, sign := NUMERIC_POS, dscale := 2, digits := [100] }

/-- Fixture oracle for `DatumGetNumeric`. -/
def numOfFix : Int → NumericVar := fun _ => numericCent

/-- Fixture oracle for `DatumGetFloat8`. -/
def f8OfFix : Int → ℚ := fun _ => 0

/-- Fixture DuckDB value with given date / timestamp views. -/
def duckValueFix (days micros : Int) : DuckValue :=
  { gBool := false, gInt8 := 0, gInt16 := 0, gInt32 := 0, gInt64 := 0
    gDateDays := days, gMicros := micros, gDouble := 0 }

/-- Fixture filter constant whose integer views are all `1`. -/
def constFix : DuckConstant :=
  { cBool := false, cUInt8 := 1, cInt16 := 1, cInt32 := 1, cInt64 := 1
    cFloat := 1, cDouble := 1 }

theorem wrapSigned_eq_self (bits : Nat) (v : Int) (hb : 1 ≤ bits)
    (h1 : -(2 ^ (bits - 1)) ≤ v) (h2 : v < 2 ^ (bits - 1)) : wrapSigned bits v = v := by
  have hpow : (2 : Int) ^ bits = 2 ^ (bits - 1) * 2 := by
    rw [← pow_succ]
    congr 1
    omega
  have hpos : (0 : Int) < 2 ^ bits := by positivity
  have hmod := Int.emod_emod_of_dvd v (dvd_refl ((2 : Int) ^ bits))
  have hlt := Int.emod_lt_of_pos v hpos
  have hge := Int.emod_nonneg v (ne_of_gt hpos)
  have hdiv := Int.emod_add_ediv v ((2 : Int) ^ bits)
  unfold wrapSigned
  set r := v.emod (2 ^ bits) with hr
  set q := v / (2 : Int) ^ bits with hq
  have hv : r + 2 ^ bits * q = v := hdiv
  have hq01 : q = 0 ∨ q = -1 := by
    rcases lt_trichotomy q 0 with hlt' | heq' | hgt'
    · right
      by_contra hne
      have : q ≤ -2 := by omega
      nlinarith [hlt, hge]
    · left; exact heq'
    · exfalso
      have : 1 ≤ q := hgt'
      nlinarith [hge, hlt]
  rcases hq01 with h0 | hm1
  · rw [h0] at hv
    simp at hv
    rw [if_pos]
    · omega
    · omega
  · rw [hm1] at hv
    rw [if_neg]
    · omega
    · omega

theorem castInt32_eq_self (v : Int) (h1 : -(2 ^ 31) ≤ v) (h2 : v < 2 ^ 31) :
    castInt32 v = v :=
  wrapSigned_eq_self 32 v (by norm_num) h1 h2

theorem castInt64_eq_self (v : Int) (h1 : -(2 ^ 63) ≤ v) (h2 : v < 2 ^ 63) :
    castInt64 v = v :=
  wrapSigned_eq_self 64 v (by norm_num) h1 h2

/-- Claim C2: converting a row-store day count `d` (microsecond count `t`)
to the columnar representation adds the fixed epoch offset of 10957 days
(10957 × 86,400,000,000 microseconds) exactly once, converting back
subtracts it exactly once, and the round trip is the identity. -/
theorem date_timestamp_round_trip (d t : Int) (v : DuckValue)
    (numOf : Int → NumericVar) (f8Of : Int → ℚ)
    (hd1 : -(2 ^ 31) ≤ d) (hd2 : d + QUACK_DUCK_DATE_OFFSET < 2 ^ 31)
    (ht1 : -(2 ^ 63) ≤ t) (ht2 : t + QUACK_DUCK_TIMESTAMP_OFFSET < 2 ^ 63)
    (hvd : v.gDateDays = d + QUACK_DUCK_DATE_OFFSET)
    (hvt : v.gMicros = t + QUACK_DUCK_TIMESTAMP_OFFSET) :
    ConvertPostgresToDuckValue numOf f8Of .date d = .ok (.wDate (d + QUACK_DUCK_DATE_OFFSET))
    ∧ ConvertDuckToPostgresValue DATEOID v = .ok (.pDate d)
    ∧ ConvertPostgresToDuckValue numOf f8Of .timestamp t =
        .ok (.wTimestamp (t + QUACK_DUCK_TIMESTAMP_OFFSET))
    ∧ ConvertDuckToPostgresValue TIMESTAMPOID v = .ok (.pTimestamp t)
    ∧ QUACK_DUCK_DATE_OFFSET = 10957
    ∧ QUACK_DUCK_TIMESTAMP_OFFSET = 10957 * 86400000000 := by
  have hoffd : QUACK_DUCK_DATE_OFFSET = 10957 := rfl
  have hofft : QUACK_DUCK_TIMESTAMP_OFFSET = 10957 * 86400000000 := rfl
  have hcast : castInt32 (d + QUACK_DUCK_DATE_OFFSET) = d + QUACK_DUCK_DATE_OFFSET := by
    apply castInt32_eq_self _ _ hd2
    rw [hoffd]
    omega
  have hcast2 : castInt64 (t + QUACK_DUCK_TIMESTAMP_OFFSET) = t + QUACK_DUCK_TIMESTAMP_OFFSET := by
    apply castInt64_eq_self _ _ ht2
    rw [hofft]
    omega
  refine ⟨?_, ?_, ?_, ?_, hoffd, hofft⟩
  · simp [ConvertPostgresToDuckValue, hcast]
  · simp [ConvertDuckToPostgresValue, DATEOID, BOOLOID, CHAROID, INT2OID, INT4OID, INT8OID,
      BPCHAROID, TEXTOID, VARCHAROID, TIMESTAMPOID, FLOAT8OID, NUMERICOID, hvd]
  · simp [ConvertPostgresToDuckValue, hcast2]
  · simp [ConvertDuckToPostgresValue, DATEOID, BOOLOID, CHAROID, INT2OID, INT4OID, INT8OID,
      BPCHAROID, TEXTOID, VARCHAROID, TIMESTAMPOID, FLOAT8OID, NUMERICOID, hvt]

theorem date_timestamp_round_trip_witness :
    (-(2 ^ 31) ≤ (20000 : Int) ∧ (20000 : Int) + QUACK_DUCK_DATE_OFFSET < 2 ^ 31
      ∧ -(2 ^ 63) ≤ (500 : Int) ∧ (500 : Int) + QUACK_DUCK_TIMESTAMP_OFFSET < 2 ^ 63)
    ∧ (ConvertPostgresToDuckValue numOfFix f8OfFix .date 20000 =
          .ok (.wDate (20000 + QUACK_DUCK_DATE_OFFSET))
        ∧ ConvertDuckToPostgresValue DATEOID
            (duckValueFix (20000 + QUACK_DUCK_DATE_OFFSET) (500 + QUACK_DUCK_TIMESTAMP_OFFSET)) =
            .ok (.pDate 20000)
        ∧ ConvertPostgresToDuckValue numOfFix f8OfFix .timestamp 500 =
            .ok (.wTimestamp (500 + QUACK_DUCK_TIMESTAMP_OFFSET))
        ∧ ConvertDuckToPostgresValue TIMESTAMPOID
            (duckValueFix (20000 + QUACK_DUCK_DATE_OFFSET) (500 + QUACK_DUCK_TIMESTAMP_OFFSET)) =
            .ok (.pTimestamp 500)
        ∧ QUACK_DUCK_DATE_OFFSET = 10957
        ∧ QUACK_DUCK_TIMESTAMP_OFFSET = 10957 * 86400000000) :=
  ⟨⟨by norm_num [QUACK_DUCK_DATE_OFFSET], by norm_num [QUACK_DUCK_DATE_OFFSET],
    by norm_num [QUACK_DUCK_TIMESTAMP_OFFSET, USECS_PER_DAY],
    by norm_num [QUACK_DUCK_TIMESTAMP_OFFSET, USECS_PER_DAY]⟩,
   date_timestamp_round_trip 20000 500
     (duckValueFix (20000 + QUACK_DUCK_DATE_OFFSET) (500 + QUACK_DUCK_TIMESTAMP_OFFSET))
     numOfFix f8OfFix
     (by norm_num [QUACK_DUCK_DATE_OFFSET]) (by norm_num [QUACK_DUCK_DATE_OFFSET])
     (by norm_num [QUACK_DUCK_TIMESTAMP_OFFSET, USECS_PER_DAY])
     (by norm_num [QUACK_DUCK_TIMESTAMP_OFFSET, USECS_PER_DAY]) rfl rfl⟩

/-- Counterexample to claim C4: the column-to-row converter raises the
unsupported-type error for a `NUMERIC`-typed destination attribute, and
the row-to-column converter raises a fatal error (rather than delegating
to the decimal codec) for a `DECIMAL`-typed destination vector. -/
theorem numeric_unsupported_counterexample :
    ConvertDuckToPostgresValue NUMERICOID (duckValueFix 0 0) =
      .error (.unsupportedPg NUMERICOID)
    ∧ ConvertPostgresToDuckValue numOfFix f8OfFix (.decimal 10 2) 0 = .error .decimalType :=
  ⟨rfl, rfl⟩

/-- Claim C4 (corrected): the column-to-row direction raises the
unsupported-type error on `NUMERICOID`; the row-to-column direction
raises a fatal error on a `DECIMAL`-typed destination; a numeric value is
supported in the row-to-column direction only through the `DOUBLE` type
carrying the `NumericAsDouble` marker, where the conversion delegates to
the decimal codec's double policy. -/
theorem numeric_conversion_paths_amended (v : DuckValue) (d p s : Int)
    (numOf : Int → NumericVar) (f8Of : Int → ℚ) :
    ConvertDuckToPostgresValue NUMERICOID v = .error (.unsupportedPg NUMERICOID)
    ∧ ConvertPostgresToDuckValue numOf f8Of (.decimal p s) d = .error .decimalType
    ∧ ConvertPostgresToDuckValue numOf f8Of (.double true) d =
        .ok (.wDoubleCodec (ConvertDecimal DecimalConversionDouble (numOf d))) := by
  refine ⟨?_, rfl, rfl⟩
  simp [ConvertDuckToPostgresValue, NUMERICOID, BOOLOID, CHAROID, INT2OID, INT4OID, INT8OID,
    BPCHAROID, TEXTOID, VARCHAROID, DATEOID, TIMESTAMPOID, FLOAT8OID]

/-- Claim C6: a missing typmod (`-1`), a decoded precision above 38, or a
negative decoded precision/scale makes the type mapping return the
approximate-double logical type carrying the numeric-as-double marker,
and the row-to-column converter seeing that marker decodes through the
decimal codec's double policy, whereas without the marker it reads a
plain float64 datum. -/
theorem numeric_fallback_double (typmod : Int) (numOf : Int → NumericVar) (f8Of : Int → ℚ)
    (d : Int)
    (h : typmod = -1 ∨ 38 < numeric_typmod_precision typmod
      ∨ numeric_typmod_precision typmod < 0 ∨ numeric_typmod_scale typmod < 0) :
    ConvertPostgresToDuckColumnType NUMERICOID typmod = .ok (.double true)
    ∧ ConvertPostgresToDuckValue numOf f8Of (.double true) d =
        .ok (.wDoubleCodec (ConvertDecimal DecimalConversionDouble (numOf d)))
    ∧ ConvertPostgresToDuckValue numOf f8Of (.double false) d = .ok (.wDoubleF8 (f8Of d)) := by
  refine ⟨?_, rfl, rfl⟩
  have hred : ConvertPostgresToDuckColumnType NUMERICOID typmod =
      (if typmod = -1 ∨ numeric_typmod_precision typmod < 0 ∨ numeric_typmod_scale typmod < 0
          ∨ numeric_typmod_precision typmod > 38
       then .ok (.double true)
       else .ok (.decimal (numeric_typmod_precision typmod) (numeric_typmod_scale typmod))) := rfl
  rw [hred, if_pos]
  tauto

theorem numeric_fallback_double_witness :
    ((-1 : Int) = -1 ∨ 38 < numeric_typmod_precision (-1)
      ∨ numeric_typmod_precision (-1) < 0 ∨ numeric_typmod_scale (-1) < 0)
    ∧ (ConvertPostgresToDuckColumnType NUMERICOID (-1) = .ok (.double true)
        ∧ ConvertPostgresToDuckValue numOfFix f8OfFix (.double true) 7 =
            .ok (.wDoubleCodec (ConvertDecimal DecimalConversionDouble (numOfFix 7)))
        ∧ ConvertPostgresToDuckValue numOfFix f8OfFix (.double false) 7 =
            .ok (.wDoubleF8 (f8OfFix 7))) :=
  ⟨Or.inl rfl, numeric_fallback_double (-1) numOfFix f8OfFix 7 (Or.inl rfl)⟩

theorem xorLow (x : Nat) (hx : x < 1024) : x ^^^ 1024 = x + 1024 := by
  have hx' : x < 2 ^ 10 := by omega
  apply Nat.eq_of_testBit_eq
  intro j
  have hadd : x + 1024 = 2 ^ 10 * 1 + x := by omega
  have h1024 : (1024 : Nat) = 2 ^ 10 := by norm_num
  rw [hadd, Nat.testBit_mul_pow_two_add 1 hx' j, h1024, Nat.testBit_xor, Nat.testBit_two_pow]
  by_cases hj : j < 10
  · rw [if_pos hj]
    have : ¬(10 = j) := by omega
    simp [this]
  · rw [if_neg hj]
    have hxbit : x.testBit j = false := by
      apply Nat.testBit_lt_two_pow
      calc x < 2 ^ 10 := hx'
        _ ≤ 2 ^ j := Nat.pow_le_pow_right (by norm_num) (by omega)
    rw [hxbit]
    by_cases hj10 : j = 10
    · subst hj10
      norm_num
    · have h10j : ¬(10 = j) := by omega
      simp [h10j]
      apply Nat.testBit_lt_two_pow
      calc (1 : Nat) < 2 ^ 1 := by norm_num
        _ ≤ 2 ^ (j - 10) := Nat.pow_le_pow_right (by norm_num) (by omega)

theorem xorBit10 : ∀ x : Nat, x < 2048 →
    (x ^^^ 1024) = if x < 1024 then x + 1024 else x - 1024 := by
  intro x hx
  by_cases hc : x < 1024
  · rw [if_pos hc]
    exact xorLow x hc
  · rw [if_neg hc]
    have hy : x - 1024 < 1024 := by omega
    have hxy : x = (x - 1024) + 1024 := by omega
    have h1 := xorLow (x - 1024) hy
    calc x ^^^ 1024 = ((x - 1024) ^^^ 1024) ^^^ 1024 := by rw [h1, ← hxy]
      _ = x - 1024 := Nat.xor_cancel_right _ _

/-- Claim C7: for every 32-bit typmod of a numeric column, the decoded
precision is bits 16–31 of `typmod - 4` (the value of the unsigned 32-bit
pattern shifted right by 16), and the decoded scale is bits 0–10 of
`typmod - 4` sign-extended from an 11-bit two's-complement field: the
low 11 bits verbatim when bit 10 is clear, and their value minus 2048
when bit 10 is set. -/
theorem numeric_typmod_bit_layout (typmod : Int) :
    numeric_typmod_precision typmod = ((typmod - 4).emod (2 ^ 32)) / (2 ^ 16)
    ∧ numeric_typmod_scale typmod =
        (if (typmod - 4).emod 2048 < 1024 then (typmod - 4).emod 2048
         else (typmod - 4).emod 2048 - 2048) := by
  have hpos : (0 : Int) < 2 ^ 32 := by positivity
  have hge : 0 ≤ (typmod - 4).emod (2 ^ 32) := Int.emod_nonneg _ (ne_of_gt hpos)
  have hlt : (typmod - 4).emod (2 ^ 32) < 2 ^ 32 := Int.emod_lt_of_pos _ hpos
  set u := (typmod - 4).emod (2 ^ 32) with hu
  have hcast : (u.toNat : Int) = u := Int.toNat_of_nonneg hge
  have hult : u.toNat < 2 ^ 32 := by omega
  constructor
  · unfold numeric_typmod_precision
    rw [← hu]
    have h1 : u.toNat >>> 16 = u.toNat / 2 ^ 16 := Nat.shiftRight_eq_div_pow _ _
    have h2 : u.toNat / 2 ^ 16 &&& 0xffff = u.toNat / 2 ^ 16 % 2 ^ 16 := by
      have := Nat.and_pow_two_sub_one_eq_mod (u.toNat / 2 ^ 16) 16
      norm_num at this ⊢
      exact this
    have h3 : u.toNat / 2 ^ 16 % 2 ^ 16 = u.toNat / 2 ^ 16 := by
      apply Nat.mod_eq_of_lt
      omega
    rw [h1, h2, h3]
    have h4 : ((u.toNat / 2 ^ 16 : Nat) : Int) = (u.toNat : Int) / ((2 ^ 16 : Nat) : Int) := by
      push_cast
      rfl
    rw [h4, hcast]
    norm_num
  · unfold numeric_typmod_scale
    rw [← hu]
    have hmm : (typmod - 4).emod 2048 = u.emod 2048 := by
      rw [hu]
      exact (Int.emod_emod_of_dvd _ (by norm_num)).symm
    have h5 : u.toNat &&& 0x7ff = u.toNat % 2048 := by
      have := Nat.and_pow_two_sub_one_eq_mod u.toNat 11
      norm_num at this ⊢
      exact this
    have h6 : u.emod 2048 = ((u.toNat % 2048 : Nat) : Int) := by
      rw [Int.natCast_mod, hcast]
      rfl
    have hb : u.toNat % 2048 < 2048 := Nat.mod_lt _ (by norm_num)
    have h7 := xorBit10 (u.toNat % 2048) hb
    rw [hmm, h6, h5, h7]
    by_cases hc : u.toNat % 2048 < 1024
    · rw [if_pos hc, if_pos (by exact_mod_cast hc)]
      omega
    · rw [if_neg hc, if_neg (by exact_mod_cast hc)]
      omega

/-- Claim C9: for constant comparisons on date/timestamp row-store values
the filter evaluator adds the fixed epoch offset (10957 days, resp.
10957 × 86,400,000,000 microseconds) to the raw value before casting and
comparing against the stored constant; the offsets agree with the ones
the row-to-column converter applies, so the comparison happens in the
columnar store's epoch. -/
theorem filter_date_timestamp_epoch (op : CompareOp) (v : Int) (c : DuckConstant)
    (numOf : Int → NumericVar) (f8Of : Int → ℚ) :
    FilterOperationSwitch op v c DATEOID =
      .ok (intCompare op (castInt32 (v + PGDUCKDB_DUCK_DATE_OFFSET)) c.cInt32)
    ∧ FilterOperationSwitch op v c TIMESTAMPOID =
      .ok (intCompare op (castInt64 (v + PGDUCKDB_DUCK_TIMESTAMP_OFFSET)) c.cInt64)
    ∧ PGDUCKDB_DUCK_DATE_OFFSET = QUACK_DUCK_DATE_OFFSET
    ∧ PGDUCKDB_DUCK_TIMESTAMP_OFFSET = QUACK_DUCK_TIMESTAMP_OFFSET
    ∧ ConvertPostgresToDuckValue numOf f8Of .date v =
      .ok (.wDate (castInt32 (v + PGDUCKDB_DUCK_DATE_OFFSET)))
    ∧ ConvertPostgresToDuckValue numOf f8Of .timestamp v =
      .ok (.wTimestamp (castInt64 (v + PGDUCKDB_DUCK_TIMESTAMP_OFFSET))) :=
  ⟨rfl, rfl, rfl, rfl, rfl, rfl⟩

/-- Claim C10: on `CHAROID` the filter evaluator compares the datum cast
to an unsigned 8-bit integer, while the type mapping sends `CHAROID` to
signed `TINYINT` and both value converters read the byte as a signed
8-bit integer; for a stored byte with the high bit set and a small
nonnegative constant the filter's unsigned order says `value > constant`
although the signed values used by the conversion path are ordered the
other way. -/
theorem char_filter_unsigned_vs_signed (op : CompareOp) (v b k tm : Int) (c : DuckConstant)
    (numOf : Int → NumericVar) (f8Of : Int → ℚ) (dv : DuckValue)
    (hb1 : 128 ≤ b) (hb2 : b < 256) (hk1 : 0 ≤ k) (hk2 : k < 128) (hck : c.cUInt8 = k) :
    FilterOperationSwitch op v c CHAROID = .ok (intCompare op (castUInt8 v) c.cUInt8)
    ∧ ConvertPostgresToDuckColumnType CHAROID tm = .ok .tinyint
    ∧ ConvertPostgresToDuckValue numOf f8Of .tinyint v = .ok (.wTinyint (castInt8 v))
    ∧ ConvertDuckToPostgresValue CHAROID dv = .ok (.pChar dv.gInt8)
    ∧ FilterOperationSwitch .gt b c CHAROID = .ok true
    ∧ castInt8 b < castInt8 k := by
  have hbmod : castUInt8 b = b := by
    unfold castUInt8
    exact Int.emod_eq_of_lt (by omega) (by norm_num; omega)
  have hcb : castInt8 b = b - 256 := by
    simp only [castInt8, wrapSigned]
    norm_num
    have hmod : b.emod 256 = b := Int.emod_eq_of_lt (by omega) (by omega)
    rw [hmod, if_neg (by omega)]
  have hckk : castInt8 k = k := by
    simp only [castInt8, wrapSigned]
    norm_num
    have hmod : k.emod 256 = k := Int.emod_eq_of_lt (by omega) (by omega)
    rw [hmod, if_pos (by omega)]
  refine ⟨rfl, rfl, rfl, rfl, ?_, ?_⟩
  · show Except.ok (intCompare .gt (castUInt8 b) c.cUInt8) = .ok true
    rw [hbmod, hck]
    simp only [intCompare, decide_eq_true_eq, Except.ok.injEq]
    omega
  · rw [hcb, hckk]
    omega

theorem char_filter_unsigned_vs_signed_witness :
    (128 ≤ (255 : Int) ∧ (255 : Int) < 256 ∧ (0 : Int) ≤ 1 ∧ (1 : Int) < 128
      ∧ constFix.cUInt8 = 1)
    ∧ (FilterOperationSwitch .eq 0 constFix CHAROID =
          .ok (intCompare .eq (castUInt8 0) constFix.cUInt8)
        ∧ ConvertPostgresToDuckColumnType CHAROID 0 = .ok .tinyint
        ∧ ConvertPostgresToDuckValue numOfFix f8OfFix .tinyint 0 = .ok (.wTinyint (castInt8 0))
        ∧ ConvertDuckToPostgresValue CHAROID (duckValueFix 0 0) =
            .ok (.pChar (duckValueFix 0 0).gInt8)
        ∧ FilterOperationSwitch .gt 255 constFix CHAROID = .ok true
        ∧ castInt8 255 < castInt8 1) :=
  ⟨⟨by norm_num, by norm_num, by norm_num, by norm_num, rfl⟩,
   char_filter_unsigned_vs_signed .eq 0 255 1 0 constFix numOfFix f8OfFix (duckValueFix 0 0)
     (by norm_num) (by norm_num) (by norm_num) (by norm_num) rfl⟩

theorem applyFilterList_ok_true_iff (cs : List TableFilter) (value : Int) (is_null : Bool)
    (type_oid : Nat) : ∀ acc : Bool,
    (applyFilterList cs value is_null type_oid acc = .ok true ↔
      (acc = true ∧ ∀ c ∈ cs, ApplyValueFilter c value is_null type_oid = .ok true)) := by
  induction cs with
  | nil =>
    intro acc
    simp [applyFilterList]
  | cons c cs ih =>
    intro acc
    simp only [applyFilterList]
    cases hc : ApplyValueFilter c value is_null type_oid with
    | error e =>
      simp [hc]
    | ok r =>
      rw [ih (acc && r)]
      simp only [List.forall_mem_cons, hc]
      constructor
      · rintro ⟨har, hall⟩
        simp only [Bool.and_eq_true] at har
        exact ⟨har.1, by rw [har.2], hall⟩
      · rintro ⟨ha, hcr, hall⟩
        have hr : r = true := by
          injection hcr
        exact ⟨by rw [ha, hr]; rfl, hall⟩

theorem applyFilterList_returns_iff (cs : List TableFilter) (value : Int) (is_null : Bool)
    (type_oid : Nat) : ∀ acc : Bool,
    ((∃ b, applyFilterList cs value is_null type_oid acc = .ok b) ↔
      ∀ c ∈ cs, ∃ b, ApplyValueFilter c value is_null type_oid = .ok b) := by
  induction cs with
  | nil =>
    intro acc
    simp [applyFilterList]
  | cons c cs ih =>
    intro acc
    simp only [applyFilterList]
    cases hc : ApplyValueFilter c value is_null type_oid with
    | error e =>
      simp [hc]
    | ok r =>
      rw [ih (acc && r)]
      simp [hc]

/-- Claim C8: an AND-conjunction filter evaluates to true iff every child
evaluates to true; the evaluator runs all children (it returns a value
exactly when every child returns one, so a child error surfaces even
after an earlier false child); the empty conjunction evaluates to true. -/
theorem apply_filter_and_semantics (cs : List TableFilter) (value : Int) (is_null : Bool)
    (type_oid : Nat) :
    (ApplyValueFilter (.conjunctionAnd cs) value is_null type_oid = .ok true ↔
      ∀ c ∈ cs, ApplyValueFilter c value is_null type_oid = .ok true)
    ∧ ((∃ b, ApplyValueFilter (.conjunctionAnd cs) value is_null type_oid = .ok b) ↔
      ∀ c ∈ cs, ∃ b, ApplyValueFilter c value is_null type_oid = .ok b)
    ∧ ApplyValueFilter (.conjunctionAnd []) value is_null type_oid = .ok true := by
  refine ⟨?_, ?_, ?_⟩
  · simp only [ApplyValueFilter]
    rw [applyFilterList_ok_true_iff]
    simp
  · simp only [ApplyValueFilter]
    rw [applyFilterList_returns_iff]
  · simp [ApplyValueFilter, applyFilterList]

/-- Claim C3 (code bug): requesting 5 attributes from a 3-attribute tuple
truncates the request to 3 and performs no out-of-bounds read, but the
trailing columns 3 and 4 are not signalled null: the reader's loop never
runs for them, the caller-initialized `isNull = false` is left untouched,
and the zero-initialized datum is handed to the value converter, so the
chunk receives `some 0` instead of `none` in columns 3 and 4. -/
theorem truncated_attributes_not_marked_null :
    (InsertTupleIntoChunk rowOracleTrunc 3 descsTrunc 5).1 =
      [some 100, some 104, some 108, some 0, some 0]
    ∧ (HeapTupleFetchNextDatumValue rowOracleTrunc 3 descsTrunc
        { m_slow := false, m_nvalid := 3, m_offset := 12 } 5 false).isNull = false
    ∧ (HeapTupleFetchNextDatumValue rowOracleTrunc 3 descsTrunc
        { m_slow := false, m_nvalid := 3, m_offset := 12 } 5 false).value = 0 := by
  refine ⟨?_, rfl, rfl⟩
  decide

theorem fetchStep_slow_mono (R : RowOracle) (att : PgAttribute) (attnum : Nat)
    (s : AttScanState) (h : s.slow = true) : (fetchStep R att attnum s).1.slow = true := by
  simp only [fetchStep, h]
  split_ifs <;> rfl

theorem fetchStep_breaks_slow (R : RowOracle) (att : PgAttribute) (attnum : Nat)
    (s : AttScanState)
    (h : (R.hasnulls && R.attIsNull attnum) = true ∨ att.attlen ≤ 0) :
    (fetchStep R att attnum s).1.slow = true := by
  rcases h with h | h
  · simp [fetchStep, h]
  · simp only [fetchStep]
    split_ifs <;> rfl

theorem fetchStep_no_cache_write (R : RowOracle) (att : PgAttribute) (attnum : Nat)
    (s : AttScanState) (h : s.slow = true) : (fetchStep R att attnum s).2 = att := by
  simp only [fetchStep, h]
  split_ifs <;> first | rfl | simp_all

theorem fetchStep_attlen (R : RowOracle) (att : PgAttribute) (attnum : Nat)
    (s : AttScanState) : ((fetchStep R att attnum s).2).attlen = att.attlen := by
  simp only [fetchStep]
  split_ifs <;> rfl

theorem fetchLoop_succ_right (R : RowOracle) (cnt a : Nat) (descs : List PgAttribute)
    (s : AttScanState) :
    fetchLoop R a (cnt + 1) descs s =
      ((fetchStep R ((fetchLoop R a cnt descs s).2.getD (a + cnt) default) (a + cnt)
          (fetchLoop R a cnt descs s).1).1,
        (fetchLoop R a cnt descs s).2.set (a + cnt)
          (fetchStep R ((fetchLoop R a cnt descs s).2.getD (a + cnt) default) (a + cnt)
            (fetchLoop R a cnt descs s).1).2) := by
  induction cnt generalizing a descs s with
  | zero => rfl
  | succ n ih =>
    have h1 : fetchLoop R a (n + 1 + 1) descs s =
        fetchLoop R (a + 1) (n + 1) (descs.set a (fetchStep R (descs.getD a default) a s).2)
          (fetchStep R (descs.getD a default) a s).1 := rfl
    have h2 : fetchLoop R a (n + 1) descs s =
        fetchLoop R (a + 1) n (descs.set a (fetchStep R (descs.getD a default) a s).2)
          (fetchStep R (descs.getD a default) a s).1 := rfl
    rw [h1, ih, h2]
    have hadd : a + 1 + n = a + (n + 1) := by omega
    rw [hadd]

theorem fetchLoop_attlen (R : RowOracle) (cnt : Nat) :
    ∀ (a : Nat) (descs : List PgAttribute) (s : AttScanState) (j : Nat),
    ((fetchLoop R a cnt descs s).2.getD j default).attlen = (descs.getD j default).attlen := by
  induction cnt with
  | zero => intro a descs s j; rfl
  | succ n ih =>
    intro a descs s j
    show ((fetchLoop R (a + 1) n (descs.set a (fetchStep R (descs.getD a default) a s).2)
        (fetchStep R (descs.getD a default) a s).1).2.getD j default).attlen = _
    rw [ih]
    by_cases hja : a = j
    · subst hja
      rw [List.getD_eq_getElem?_getD, List.getElem?_set]
      by_cases hl : a < descs.length
      · rw [if_pos rfl, if_pos hl]
        simp only [Option.getD_some]
        rw [fetchStep_attlen]
      · rw [if_pos rfl, if_neg hl]
        rw [List.getD_eq_getElem?_getD, List.getElem?_eq_none (by omega)]
    · rw [List.getD_eq_getElem?_getD, List.getElem?_set_ne hja, ← List.getD_eq_getElem?_getD]

theorem rowRun_attlen (R : RowOracle) (descs : List PgAttribute) (m j : Nat) :
    ((rowRun R descs m).2.getD j default).attlen = (descs.getD j default).attlen :=
  fetchLoop_attlen R m 0 descs _ j

theorem rowRun_succ (R : RowOracle) (descs : List PgAttribute) (n : Nat) :
    rowRun R descs (n + 1) =
      ((fetchStep R ((rowRun R descs n).2.getD n default) n (rowRun R descs n).1).1,
        (rowRun R descs n).2.set n
          (fetchStep R ((rowRun R descs n).2.getD n default) n (rowRun R descs n).1).2) := by
  have h := fetchLoop_succ_right R n 0 descs { off := 0, slow := false, value := 0, isNull := false }
  simpa [rowRun] using h

theorem rowRun_slow_after_break (R : RowOracle) (descs : List PgAttribute) (i : Nat)
    (hbreak : (R.hasnulls && R.attIsNull i) = true ∨ (descs.getD i default).attlen ≤ 0) :
    ∀ n, i < n → (rowRun R descs n).1.slow = true := by
  intro n
  induction n with
  | zero => intro h; omega
  | succ n ih =>
    intro _
    rw [rowRun_succ]
    rcases Nat.lt_or_ge i n with hin | hin
    · exact fetchStep_slow_mono _ _ _ _ (ih hin)
    · have hieq : i = n := by omega
      subst hieq
      apply fetchStep_breaks_slow
      rcases hbreak with hb | hb
      · exact Or.inl hb
      · exact Or.inr (by rw [rowRun_attlen]; exact hb)

theorem rowRun_cache_preserved (R : RowOracle) (descs : List PgAttribute) (i j : Nat)
    (hij : i < j)
    (hbreak : (R.hasnulls && R.attIsNull i) = true ∨ (descs.getD i default).attlen ≤ 0) :
    ∀ m, ((rowRun R descs m).2.getD j default).attcacheoff =
      (descs.getD j default).attcacheoff := by
  intro m
  induction m with
  | zero => rfl
  | succ n ih =>
    rw [rowRun_succ]
    by_cases hnj : n = j
    · subst hnj
      have hslowj : (rowRun R descs n).1.slow = true :=
        rowRun_slow_after_break R descs i hbreak n hij
      have hnc : (fetchStep R ((rowRun R descs n).2.getD n default) n (rowRun R descs n).1).2
          = (rowRun R descs n).2.getD n default := fetchStep_no_cache_write _ _ _ _ hslowj
      rw [hnc]
      rw [List.getD_eq_getElem?_getD, List.getElem?_set]
      by_cases hl : n < (rowRun R descs n).2.length
      · rw [if_pos rfl, if_pos hl]
        simp only [Option.getD_some]
        exact ih
      · rw [if_pos rfl, if_neg hl]
        have h2 : (rowRun R descs n).2.getD n default = default := by
          rw [List.getD_eq_getElem?_getD, List.getElem?_eq_none (by omega)]
          rfl
        rw [← ih, h2]
        rfl
    · rw [List.getD_eq_getElem?_getD, List.getElem?_set_ne hnj, ← List.getD_eq_getElem?_getD]
      exact ih

/-- Claim C5: during the decoding of one row, once attribute `i` is null
(or has non-positive declared length, which includes varlena attributes),
the slow-mode flag holds at the entry of every later attribute `j`, and
attribute `j`'s cached offset slot is never written during the row (the
cache is written only when slow mode is not set when the attribute is
reached, so no offset computed after the break is recorded). -/
theorem slow_mode_and_cache_invariant (R : RowOracle) (descs : List PgAttribute)
    (i j m : Nat) (hij : i < j)
    (hbreak : (R.hasnulls && R.attIsNull i) = true ∨ (descs.getD i default).attlen ≤ 0) :
    (rowRun R descs j).1.slow = true
    ∧ ((rowRun R descs m).2.getD j default).attcacheoff =
        (descs.getD j default).attcacheoff :=
  ⟨rowRun_slow_after_break R descs i hbreak j hij,
   rowRun_cache_preserved R descs i j hij hbreak m⟩

theorem slow_mode_and_cache_invariant_witness :
    ((0 : Nat) < 1
      ∧ ((rowOracleNullFirst.hasnulls && rowOracleNullFirst.attIsNull 0) = true
        ∨ (descsNullFirst.getD 0 default).attlen ≤ 0))
    ∧ ((rowRun rowOracleNullFirst descsNullFirst 1).1.slow = true
      ∧ ((rowRun rowOracleNullFirst descsNullFirst 3).2.getD 1 default).attcacheoff =
          (descsNullFirst.getD 1 default).attcacheoff) :=
  ⟨⟨by decide, Or.inl (by decide)⟩,
   slow_mode_and_cache_invariant rowOracleNullFirst descsNullFirst 0 1 3 (by decide)
     (Or.inl (by decide))⟩

theorem integralAccum_cast (digits : List Int) (k : Nat) (hk : 0 < k) :
    ∀ w : Nat, ((integralAccum (T := Int) digits k w : Int) : ℚ) =
      ∑ i ∈ Finset.range (w + 1),
        (if i < k then ((digits.getD i 0 : Int) : ℚ) else 0) * (10 : ℚ) ^ (4 * (w - i)) := by
  intro w
  induction w with
  | zero =>
    simp [integralAccum, hk]
  | succ n ih =>
    have hcast : ((integralAccum (T := Int) digits k (n + 1) : Int) : ℚ) =
        ((integralAccum (T := Int) digits k n : Int) : ℚ) * 10000 +
          (if n + 1 < k then ((digits.getD (n + 1) 0 : Int) : ℚ) else 0) := by
      simp only [integralAccum]
      split_ifs <;> push_cast <;> ring
    rw [hcast, ih]
    conv_rhs => rw [Finset.sum_range_succ]
    have hterm : ∀ i ∈ Finset.range (n + 1),
        (if i < k then ((digits.getD i 0 : Int) : ℚ) else 0) * (10 : ℚ) ^ (4 * (n + 1 - i)) =
        ((if i < k then ((digits.getD i 0 : Int) : ℚ) else 0) * (10 : ℚ) ^ (4 * (n - i))) * 10000 := by
      intro i hi
      have hin : i ≤ n := by
        have := Finset.mem_range.mp hi
        omega
      have h4 : 4 * (n + 1 - i) = 4 * (n - i) + 4 := by omega
      rw [h4, pow_add]
      ring_nf
    rw [Finset.sum_congr rfl hterm, ← Finset.sum_mul]
    have h0 : 4 * (n + 1 - (n + 1)) = 0 := by omega
    rw [h0]
    ring

theorem q10_pow_mul_zpow (e f : Nat) (z : Int) (h : (e : Int) + z = (f : Int)) :
    (10 : ℚ) ^ e * (10 : ℚ) ^ z = (10 : ℚ) ^ f := by
  have h1 : ((10 : ℚ) ^ e) = (10 : ℚ) ^ (e : Int) := (zpow_natCast _ _).symm
  have h2 : ((10 : ℚ) ^ f) = (10 : ℚ) ^ (f : Int) := (zpow_natCast _ _).symm
  rw [h1, h2, ← zpow_add₀ (by norm_num : (10 : ℚ) ≠ 0), h]

theorem fracAccum_cast (corr : Int) :
    ∀ (L : List Int) (acc : Int), L ≠ [] →
    (0 ≤ corr → corr ≤ 4 ∧ (10 : Int) ^ corr.toNat ∣ L.getLast?.getD 0) →
    ((fracAccum DecimalConversionInteger corr L acc : Int) : ℚ) =
      ((acc : ℚ) * (10 : ℚ) ^ (4 * L.length) +
        ∑ j ∈ Finset.range L.length,
          ((L.getD j 0 : Int) : ℚ) * (10 : ℚ) ^ (4 * (L.length - 1 - j)))
      * (10 : ℚ) ^ (-corr) := by
  intro L
  induction L with
  | nil => intro acc h _; exact absurd rfl h
  | cons d L' ih =>
    intro acc _ hdvd
    cases L' with
    | nil =>
      simp only [fracAccum, DecimalConversionInteger, Int.cast_id]
      by_cases hc : 0 ≤ corr
      · rw [if_pos hc]
        obtain ⟨hc4, hd⟩ := hdvd hc
        have hcc : ((corr.toNat : Nat) : Int) = corr := Int.toNat_of_nonneg hc
        have hc4n : corr.toNat ≤ 4 := by omega
        have hd' : (10 : Int) ^ corr.toNat ∣ d := by simpa using hd
        obtain ⟨q, hq⟩ := hd'
        have hexp : corr.toNat + (4 - corr.toNat) = 4 := by omega
        have htdiv1 : Int.tdiv 10000 ((10 : Int) ^ corr.toNat) = 10 ^ (4 - corr.toNat) := by
          have h10000 : (10000 : Int) = 10 ^ corr.toNat * 10 ^ (4 - corr.toNat) := by
            rw [← pow_add, hexp]
            norm_num
          rw [h10000]
          exact Int.mul_tdiv_cancel_left _ (by positivity)
        have htdiv2 : Int.tdiv d ((10 : Int) ^ corr.toNat) = q := by
          rw [hq]
          exact Int.mul_tdiv_cancel_left _ (by positivity)
        rw [htdiv1, htdiv2]
        have e1 := q10_pow_mul_zpow 4 (4 - corr.toNat) (-corr)
          (by rw [Nat.cast_sub hc4n]; omega)
        have e2 := q10_pow_mul_zpow corr.toNat 0 (-corr) (by omega)
        have hdq : ((d : Int) : ℚ) = (10 : ℚ) ^ corr.toNat * (q : ℚ) := by
          rw [hq]
          push_cast
          ring
        simp only [List.length_cons, List.length_nil, Nat.zero_add, Finset.sum_range_one,
          List.getD_cons_zero]
        rw [hdq]
        push_cast
        linear_combination (-(acc : ℚ)) * e1 - (q : ℚ) * e2
      · rw [if_neg hc]
        have hz : (10 : ℚ) ^ (-corr) = (10 : ℚ) ^ ((-corr).toNat) := by
          rw [← zpow_natCast (10 : ℚ) ((-corr).toNat), Int.toNat_of_nonneg (by omega : (0:Int) ≤ -corr)]
        simp only [List.length_cons, List.length_nil, Nat.zero_add, Finset.sum_range_one,
          List.getD_cons_zero]
        rw [hz]
        push_cast
        ring
    | cons e rest =>
      have hne : (e :: rest) ≠ [] := by simp
      have hlast : (e :: rest).getLast?.getD 0 = ((d :: e :: rest) : List Int).getLast?.getD 0 := by
        rw [List.getLast?_cons_cons]
      have ihh := ih (acc * 10000 + d) hne
        (fun hc0 => ⟨(hdvd hc0).1, by rw [hlast]; exact (hdvd hc0).2⟩)
      have hstep : fracAccum DecimalConversionInteger corr (d :: e :: rest) acc =
          fracAccum DecimalConversionInteger corr (e :: rest) (acc * 10000 + d) := rfl
      rw [hstep, ihh]
      congr 1
      have hm : (d :: e :: rest).length = (e :: rest).length + 1 := by simp
      rw [hm]
      rw [Finset.sum_range_succ']
      simp only [List.getD_cons_succ, List.getD_cons_zero]
      have hexp_sum : ∀ j ∈ Finset.range (e :: rest).length,
          ((List.getD (e :: rest) j 0 : Int) : ℚ) *
              (10 : ℚ) ^ (4 * ((e :: rest).length + 1 - 1 - (j + 1))) =
          ((List.getD (e :: rest) j 0 : Int) : ℚ) *
              (10 : ℚ) ^ (4 * ((e :: rest).length - 1 - j)) := by
        intro j hj
        congr 2
        omega
      rw [Finset.sum_congr rfl hexp_sum]
      have hp : (10 : ℚ) ^ (4 * ((e :: rest).length + 1)) =
          (10 : ℚ) ^ (4 * (e :: rest).length) * 10 ^ 4 := by
        ring
      have hp0 : 4 * ((e :: rest).length + 1 - 1 - 0) = 4 * (e :: rest).length := by omega
      rw [hp, hp0]
      push_cast
      ring

theorem q10000_zpow_nonneg (w : Int) (i : Nat) (hw : 0 ≤ w) (hi : i ≤ w.toNat) :
    (10000 : ℚ) ^ ((w - i : Int)) = (10 : ℚ) ^ (4 * (w.toNat - i)) := by
  have h1 : (w - i : Int) = ((w.toNat - i : ℕ) : Int) := by omega
  rw [h1, zpow_natCast]
  have h2 : (10000 : ℚ) = 10 ^ 4 := by norm_num
  rw [h2, ← pow_mul]

theorem q10000_zpow_term (wz : Int) (sn : Nat) (e2 : Nat) (corr : Int)
    (h : 4 * wz + (sn : Int) = (e2 : Int) - corr) :
    (10000 : ℚ) ^ wz * (10 : ℚ) ^ sn = (10 : ℚ) ^ e2 * (10 : ℚ) ^ (-corr) := by
  have h1 : (10000 : ℚ) = (10 : ℚ) ^ ((4 : ℕ) : Int) := by
    rw [zpow_natCast]
    norm_num
  rw [h1, ← zpow_mul]
  rw [← zpow_natCast (10 : ℚ) sn, ← zpow_natCast (10 : ℚ) e2]
  rw [← zpow_add₀ (by norm_num : (10 : ℚ) ≠ 0), ← zpow_add₀ (by norm_num : (10 : ℚ) ≠ 0)]
  have hexp : ((4 : ℕ) : Int) * wz + (sn : Int) = (e2 : Int) + -corr := by
    push_cast
    omega
  rw [hexp]

theorem integral_sum_eq (n : NumericVar) (hk : 0 < n.ndigits) (hw : 0 ≤ n.weight)
    (hkw : n.ndigits ≤ n.weight.toNat + 1) :
    ((integralAccum (T := Int) n.digits n.ndigits n.weight.toNat : Int) : ℚ) =
      ∑ i ∈ Finset.range n.ndigits,
        ((n.digits.getD i 0 : Int) : ℚ) * (10000 : ℚ) ^ ((n.weight - i : Int)) := by
  rw [integralAccum_cast n.digits n.ndigits hk]
  rw [← Finset.sum_subset (Finset.range_subset.mpr hkw)
    (by
      intro x hx hnx
      simp only [Finset.mem_range] at hnx
      rw [if_neg hnx, zero_mul])]
  apply Finset.sum_congr rfl
  intro i hi
  have hik : i < n.ndigits := Finset.mem_range.mp hi
  rw [if_pos hik, q10000_zpow_nonneg n.weight i hw (by omega)]

theorem convertDecimal_magnitude (n : NumericVar)
    (hk : 0 < n.ndigits)
    (hlen : n.ndigits = n.digits.length)
    (hcorr : (n.ndigits : Int) > n.weight + 1 →
      0 ≤ ((n.ndigits : Int) - n.weight - 1) * 4 - (n.dscale : Int) →
      ((n.ndigits : Int) - n.weight - 1) * 4 - (n.dscale : Int) ≤ 4
        ∧ (10 : Int) ^ ((((n.ndigits : Int) - n.weight - 1) * 4 - (n.dscale : Int)).toNat) ∣
            n.digits.getD (n.ndigits - 1) 0) :
    (((if 0 ≤ n.weight then
        integralAccum (T := Int) n.digits n.ndigits n.weight.toNat * 10 ^ n.dscale
      else 0) +
      (if (n.ndigits : Int) > n.weight + 1 then
        fracAccum DecimalConversionInteger
          (((n.ndigits : Int) - n.weight - 1) * 4 - (n.dscale : Int))
          ((n.digits.take n.ndigits).drop (max 0 (n.weight + 1)).toNat) 0
      else 0) : Int) : ℚ) =
    (∑ i ∈ Finset.range n.ndigits,
      ((n.digits.getD i 0 : Int) : ℚ) * (10000 : ℚ) ^ ((n.weight - i : Int))) * 10 ^ n.dscale := by
  have htake : n.digits.take n.ndigits = n.digits := by
    rw [hlen]
    exact List.take_length _
  by_cases hw : 0 ≤ n.weight
  · by_cases hfr : (n.ndigits : Int) > n.weight + 1
    · -- integral and fractional parts both present
      rw [if_pos hw, if_pos hfr]
      have hstart : (max 0 (n.weight + 1)).toNat = n.weight.toNat + 1 := by
        rw [max_eq_right (by omega : (0 : Int) ≤ n.weight + 1)]
        omega
      rw [hstart, htake]
      have hkgt : n.weight.toNat + 1 < n.ndigits := by omega
      have hlenL : (n.digits.drop (n.weight.toNat + 1)).length =
          n.ndigits - (n.weight.toNat + 1) := by
        rw [List.length_drop, ← hlen]
      have hne : n.digits.drop (n.weight.toNat + 1) ≠ [] := by
        apply List.length_pos.mp
        omega
      have hidx : n.weight.toNat + 1 + ((n.digits.drop (n.weight.toNat + 1)).length - 1) =
          n.ndigits - 1 := by omega
      have hlast : (n.digits.drop (n.weight.toNat + 1)).getLast?.getD 0 =
          n.digits.getD (n.ndigits - 1) 0 := by
        rw [List.getLast?_eq_getElem?, List.getElem?_drop, hidx, List.getD_eq_getElem?_getD]
      have hdvd : 0 ≤ ((n.ndigits : Int) - n.weight - 1) * 4 - (n.dscale : Int) →
          ((n.ndigits : Int) - n.weight - 1) * 4 - (n.dscale : Int) ≤ 4 ∧
          (10 : Int) ^ ((((n.ndigits : Int) - n.weight - 1) * 4 - (n.dscale : Int)).toNat) ∣
            (n.digits.drop (n.weight.toNat + 1)).getLast?.getD 0 := by
        intro hc0
        obtain ⟨h1, h2⟩ := hcorr hfr hc0
        exact ⟨h1, by rw [hlast]; exact h2⟩
      push_cast
      rw [fracAccum_cast _ _ _ hne hdvd]
      simp only [Int.cast_zero, zero_mul, zero_add]
      have e_int : ((integralAccum (T := Int) n.digits n.ndigits n.weight.toNat : Int) : ℚ) =
          ∑ i ∈ Finset.range (n.weight.toNat + 1),
            ((n.digits.getD i 0 : Int) : ℚ) * (10000 : ℚ) ^ ((n.weight - i : Int)) := by
        rw [integralAccum_cast n.digits n.ndigits hk]
        apply Finset.sum_congr rfl
        intro i hi
        have hik : i ≤ n.weight.toNat := by
          have := Finset.mem_range.mp hi
          omega
        rw [if_pos (by omega), q10000_zpow_nonneg n.weight i hw hik]
      rw [e_int]
      have e_frac : (∑ j ∈ Finset.range (n.digits.drop (n.weight.toNat + 1)).length,
            (((n.digits.drop (n.weight.toNat + 1)).getD j 0 : Int) : ℚ) *
              (10 : ℚ) ^ (4 * ((n.digits.drop (n.weight.toNat + 1)).length - 1 - j)))
          * (10 : ℚ) ^ (-(((n.ndigits : Int) - n.weight - 1) * 4 - (n.dscale : Int))) =
          (∑ i ∈ Finset.Ico (n.weight.toNat + 1) n.ndigits,
            ((n.digits.getD i 0 : Int) : ℚ) * (10000 : ℚ) ^ ((n.weight - i : Int)))
            * (10 : ℚ) ^ n.dscale := by
        rw [Finset.sum_Ico_eq_sum_range, hlenL]
        rw [Finset.sum_mul, Finset.sum_mul]
        apply Finset.sum_congr rfl
        intro j hj
        have hjm : j < n.ndigits - (n.weight.toNat + 1) := Finset.mem_range.mp hj
        have hLj : (n.digits.drop (n.weight.toNat + 1)).getD j 0 =
            n.digits.getD (n.weight.toNat + 1 + j) 0 := by
          rw [List.getD_eq_getElem?_getD, List.getElem?_drop, List.getD_eq_getElem?_getD]
        rw [hLj, mul_assoc, mul_assoc]
        congr 1
        rw [← q10000_zpow_term (n.weight - ((n.weight.toNat + 1 + j : ℕ) : Int)) n.dscale
          (4 * (n.ndigits - (n.weight.toNat + 1) - 1 - j))
          (((n.ndigits : Int) - n.weight - 1) * 4 - (n.dscale : Int)) (by push_cast; omega)]
      rw [e_frac]
      have hsplit : (∑ i ∈ Finset.range n.ndigits,
          ((n.digits.getD i 0 : Int) : ℚ) * (10000 : ℚ) ^ ((n.weight - i : Int))) =
          (∑ i ∈ Finset.range (n.weight.toNat + 1),
            ((n.digits.getD i 0 : Int) : ℚ) * (10000 : ℚ) ^ ((n.weight - i : Int))) +
          ∑ i ∈ Finset.Ico (n.weight.toNat + 1) n.ndigits,
            ((n.digits.getD i 0 : Int) : ℚ) * (10000 : ℚ) ^ ((n.weight - i : Int)) := by
        have h1 : Finset.range n.ndigits = Finset.Ico 0 n.ndigits := by
          rw [Finset.range_eq_Ico]
        have h2 : Finset.range (n.weight.toNat + 1) = Finset.Ico 0 (n.weight.toNat + 1) := by
          rw [Finset.range_eq_Ico]
        rw [h1, h2]
        exact (Finset.sum_Ico_consecutive _ (by omega) (by omega)).symm
      rw [hsplit, add_mul]
    · -- integral part only
      rw [if_pos hw, if_neg hfr, add_zero]
      push_cast
      rw [integral_sum_eq n hk hw (by omega)]
  · -- negative weight: fractional part only
    have hfr : (n.ndigits : Int) > n.weight + 1 := by omega
    rw [if_neg hw, if_pos hfr, zero_add]
    have hstart : (max 0 (n.weight + 1)).toNat = 0 := by
      rw [max_eq_left (by omega : n.weight + 1 ≤ 0)]
      rfl
    rw [hstart, htake, List.drop_zero]
    have hne : n.digits ≠ [] := by
      apply List.length_pos.mp
      omega
    have hlast : n.digits.getLast?.getD 0 = n.digits.getD (n.ndigits - 1) 0 := by
      rw [List.getLast?_eq_getElem?, List.getD_eq_getElem?_getD, hlen]
    have hdvd : 0 ≤ ((n.ndigits : Int) - n.weight - 1) * 4 - (n.dscale : Int) →
        ((n.ndigits : Int) - n.weight - 1) * 4 - (n.dscale : Int) ≤ 4 ∧
        (10 : Int) ^ ((((n.ndigits : Int) - n.weight - 1) * 4 - (n.dscale : Int)).toNat) ∣
          n.digits.getLast?.getD 0 := by
      intro hc0
      obtain ⟨h1, h2⟩ := hcorr hfr hc0
      exact ⟨h1, by rw [hlast]; exact h2⟩
    rw [fracAccum_cast _ _ _ hne hdvd]
    simp only [Int.cast_zero, zero_mul, zero_add]
    rw [← hlen]
    rw [Finset.sum_mul, Finset.sum_mul]
    apply Finset.sum_congr rfl
    intro j hj
    have hjk : j < n.ndigits := Finset.mem_range.mp hj
    rw [mul_assoc, mul_assoc]
    congr 1
    rw [← q10000_zpow_term (n.weight - (j : Int)) n.dscale (4 * (n.ndigits - 1 - j))
      (((n.ndigits : Int) - n.weight - 1) * 4 - (n.dscale : Int)) (by push_cast; omega)]

theorem convertDecimal_int_sign (n : NumericVar) :
    ConvertDecimal DecimalConversionInteger { n with sign := NUMERIC_NEG } =
      - ConvertDecimal DecimalConversionInteger { n with sign := NUMERIC_POS } := by
  by_cases h0 : n.ndigits = 0
  · simp [ConvertDecimal, h0]
  · simp [ConvertDecimal, NumericIsNegative, NUMERIC_NEG, NUMERIC_POS,
      DecimalConversionInteger, h0]

theorem convertDecimal_cast_eq (n : NumericVar)
    (hlen : n.ndigits = n.digits.length)
    (hcorr : (n.ndigits : Int) > n.weight + 1 →
      0 ≤ ((n.ndigits : Int) - n.weight - 1) * 4 - (n.dscale : Int) →
      ((n.ndigits : Int) - n.weight - 1) * 4 - (n.dscale : Int) ≤ 4
        ∧ (10 : Int) ^ ((((n.ndigits : Int) - n.weight - 1) * 4 - (n.dscale : Int)).toNat) ∣
            n.digits.getD (n.ndigits - 1) 0) :
    ((ConvertDecimal DecimalConversionInteger n : Int) : ℚ) =
      numericValue n * 10 ^ n.dscale := by
  by_cases h0 : n.ndigits = 0
  · simp [ConvertDecimal, numericValue, h0]
  · have hk : 0 < n.ndigits := Nat.pos_of_ne_zero h0
    have hmag := convertDecimal_magnitude n hk hlen hcorr
    have hCD : ConvertDecimal DecimalConversionInteger n =
        if NumericIsNegative n then
          -((if 0 ≤ n.weight then
              integralAccum (T := Int) n.digits n.ndigits n.weight.toNat * 10 ^ n.dscale
            else 0) +
            (if (n.ndigits : Int) > n.weight + 1 then
              fracAccum DecimalConversionInteger
                (((n.ndigits : Int) - n.weight - 1) * 4 - (n.dscale : Int))
                ((n.digits.take n.ndigits).drop (max 0 (n.weight + 1)).toNat) 0
            else 0))
        else
          ((if 0 ≤ n.weight then
              integralAccum (T := Int) n.digits n.ndigits n.weight.toNat * 10 ^ n.dscale
            else 0) +
            (if (n.ndigits : Int) > n.weight + 1 then
              fracAccum DecimalConversionInteger
                (((n.ndigits : Int) - n.weight - 1) * 4 - (n.dscale : Int))
                ((n.digits.take n.ndigits).drop (max 0 (n.weight + 1)).toNat) 0
            else 0)) := by
      simp only [ConvertDecimal, DecimalConversionInteger]
      rw [if_neg h0]
    rw [hCD]
    by_cases hneg : NumericIsNegative n = true
    · rw [if_pos hneg, Int.cast_neg, hmag, numericValue, if_pos hneg]
      ring
    · rw [if_neg hneg, hmag, numericValue, if_neg hneg]
      ring

/-- Claim C1: for a valid digit-group decomposition (digit count matching
the digit array, digit groups in `[0, 9999]`, and — whenever the digit
groups run past the decimal point with a nonnegative correction — the
correction at most 4 with the last group divisible by the corrected power
of ten, which always holds for Postgres-stored numerics), `ConvertDecimal`
with the fixed-width integer policy returns `round(value * 10 ^ dscale)`,
and the sign is applied by negating the decoded magnitude exactly when the
sign word is negative, independently of the magnitude computation. -/
theorem convert_decimal_integer_round (n : NumericVar)
    (hlen : n.ndigits = n.digits.length)
    (_hdig : ∀ d ∈ n.digits, 0 ≤ d ∧ d < 10000)
    (hcorr : (n.ndigits : Int) > n.weight + 1 →
      0 ≤ ((n.ndigits : Int) - n.weight - 1) * 4 - (n.dscale : Int) →
      ((n.ndigits : Int) - n.weight - 1) * 4 - (n.dscale : Int) ≤ 4
        ∧ (10 : Int) ^ ((((n.ndigits : Int) - n.weight - 1) * 4 - (n.dscale : Int)).toNat) ∣
            n.digits.getD (n.ndigits - 1) 0) :
    ConvertDecimal DecimalConversionInteger n = round (numericValue n * 10 ^ n.dscale)
    ∧ ConvertDecimal DecimalConversionInteger { n with sign := NUMERIC_NEG } =
        - ConvertDecimal DecimalConversionInteger { n with sign := NUMERIC_POS } := by
  refine ⟨?_, convertDecimal_int_sign n⟩
  have key := convertDecimal_cast_eq n hlen hcorr
  rw [← key, round_intCast]

theorem convert_decimal_integer_round_witness :
    (numericCent.ndigits = numericCent.digits.length
      ∧ (∀ d ∈ numericCent.digits, 0 ≤ d ∧ d < 10000)
      ∧ ((numericCent.ndigits : Int) > numericCent.weight + 1 →
          0 ≤ ((numericCent.ndigits : Int) - numericCent.weight - 1) * 4 -
            (numericCent.dscale : Int) →
          ((numericCent.ndigits : Int) - numericCent.weight - 1) * 4 -
              (numericCent.dscale : Int) ≤ 4
            ∧ (10 : Int) ^ ((((numericCent.ndigits : Int) - numericCent.weight - 1) * 4 -
                (numericCent.dscale : Int)).toNat) ∣
              numericCent.digits.getD (numericCent.ndigits - 1) 0))
    ∧ (ConvertDecimal DecimalConversionInteger numericCent =
          round (numericValue numericCent * 10 ^ numericCent.dscale)
        ∧ ConvertDecimal DecimalConversionInteger { numericCent with sign := NUMERIC_NEG } =
            - ConvertDecimal DecimalConversionInteger { numericCent with sign := NUMERIC_POS }) :=
  ⟨⟨rfl, by decide, fun _ _ => ⟨by decide, by decide⟩⟩,
   convert_decimal_integer_round numericCent rfl (by decide)
     (fun _ _ => ⟨by decide, by decide⟩)⟩
